import Mathlib

/- Verification development for the opus_headers crate.

Shallow embedding conventions:
* a byte stream (`std::io::Read`) is a `List Byte`; every parser takes the
  remaining stream and returns the unread remainder, so `read_exact` either
  consumes the requested bytes or fails the way the crate maps a short read
  to its I/O error variant;
* machine integers are `Nat` (unsigned) or `Int` (signed), produced from
  little-endian byte lists exactly like `u32::from_le_bytes` and friends;
* Rust `String`s are modelled by their UTF-8 byte content (`List Byte`);
  `str::from_utf8` becomes the `utf8Valid` check, and `splitn(2, "=")`
  becomes a split at the first 0x3D byte, which in valid UTF-8 is exactly
  the character '=';
* the comment-header decoders additionally log the size of every
  `vec![0; n]` buffer whose size `n` comes from a parsed length field, so
  that allocation behaviour driven by untrusted lengths is observable. -/

/-- A machine byte. -/
abbrev Byte := Fin 256

/-- Truncation of a natural number to one byte (a Rust `as u8` style cast;
only ever applied where the value already fits). -/
def natToByte (n : Nat) : Byte := ⟨n % 256, Nat.mod_lt _ (by omega)⟩

/-- Value of a little-endian byte sequence, as computed by
`uN::from_le_bytes`. -/
def leVal : List Byte → Nat
  | [] => 0
  | b :: rest => b.val + 256 * leVal rest

/-- Signed 64-bit value of eight little-endian bytes (`i64::from_le_bytes`). -/
def leI64 (bs : List Byte) : Int :=
  let n := leVal bs
  if n < 2 ^ 63 then (n : Int) else (n : Int) - 2 ^ 64

/-- Signed 16-bit value of two little-endian bytes (`i16::from_le_bytes`). -/
def leI16 (bs : List Byte) : Int :=
  let n := leVal bs
  if n < 2 ^ 15 then (n : Int) else (n : Int) - 2 ^ 16

/-- Errors of `src/error.rs` (`ParseError`).  The payloads of the `Io` and
`Encoding` variants are dropped. -/
inductive ParseError where
  | Io
  | Encoding
  | InvalidOggPage
  | InvalidOpusHeader
  | CommentHeaderTooLarge
  | CommentTooLong
  | LengthMismatch
deriving DecidableEq

deriving instance DecidableEq for Except

/-- Embedding of `reader.read_exact` into a freshly allocated buffer of `n`
bytes: succeeds with the first `n` bytes and the remainder of the stream,
or fails like a short read. -/
def readExact (n : Nat) (s : List Byte) : Except ParseError (List Byte × List Byte) :=
  if n ≤ s.length then .ok (s.take n, s.drop n) else .error .Io

/-- Reading a single byte (`read_exact` into a one-byte buffer). -/
def readByte (s : List Byte) : Except ParseError (Byte × List Byte) :=
  match s with
  | [] => .error .Io
  | b :: rest => .ok (b, rest)

/-- Reading a `u16` (`read_exact` of two bytes plus `u16::from_le_bytes`). -/
def readU16 (s : List Byte) : Except ParseError (Nat × List Byte) :=
  match s with
  | b0 :: b1 :: rest => .ok (leVal [b0, b1], rest)
  | _ => .error .Io

/-- Reading an `i16` (`read_exact` of two bytes plus `i16::from_le_bytes`). -/
def readI16 (s : List Byte) : Except ParseError (Int × List Byte) :=
  match s with
  | b0 :: b1 :: rest => .ok (leI16 [b0, b1], rest)
  | _ => .error .Io

/-- Reading a `u32` (`read_exact` of four bytes plus `u32::from_le_bytes`). -/
def readU32 (s : List Byte) : Except ParseError (Nat × List Byte) :=
  match s with
  | b0 :: b1 :: b2 :: b3 :: rest => .ok (leVal [b0, b1, b2, b3], rest)
  | _ => .error .Io

/-- Reading an `i64` (`read_exact` of eight bytes plus `i64::from_le_bytes`). -/
def readI64 (s : List Byte) : Except ParseError (Int × List Byte) :=
  match s with
  | b0 :: b1 :: b2 :: b3 :: b4 :: b5 :: b6 :: b7 :: rest =>
    .ok (leI64 [b0, b1, b2, b3, b4, b5, b6, b7], rest)
  | _ => .error .Io

/-- The `OggS` capture pattern checked by `OggPage::parse`. -/
def oggMagic : List Byte := [0x4f, 0x67, 0x67, 0x53]

/-- The `OpusHead` signature checked by `IdentificationHeader::parse`. -/
def opusHeadMagic : List Byte := [0x4f, 0x70, 0x75, 0x73, 0x48, 0x65, 0x61, 0x64]

/-- The `OpusTags` signature checked by `CommentHeader::parse`. -/
def opusTagsMagic : List Byte := [0x4f, 0x70, 0x75, 0x73, 0x54, 0x61, 0x67, 0x73]

/-- The page record of `src/ogg_page.rs` (`struct OggPage`). -/
structure OggPage where
  version : Byte
  headerType : Byte
  granulePosition : Int
  bitstreamSerialNumber : Nat
  pageSequenceNumber : Nat
  crcChecksum : Nat
  pageSegments : Byte
  segmentTable : List Byte
  payload : List Byte
deriving DecidableEq

/-- Embedding of `OggPage::parse` (src/ogg_page.rs).  Checks the four magic
bytes, reads the fixed header fields, the `page_segments`-long segment
table, and finally a payload of `sum(segment_table)` bytes. -/
def OggPage.parse (s : List Byte) : Except ParseError (OggPage × List Byte) :=
  match readExact 4 s with
  | .error e => .error e
  | .ok (magic, s) =>
    if magic ≠ oggMagic then .error .InvalidOggPage
    else
      match readByte s with
      | .error e => .error e
      | .ok (version, s) =>
        match readByte s with
        | .error e => .error e
        | .ok (headerType, s) =>
          match readI64 s with
          | .error e => .error e
          | .ok (granulePosition, s) =>
            match readU32 s with
            | .error e => .error e
            | .ok (bitstreamSerialNumber, s) =>
              match readU32 s with
              | .error e => .error e
              | .ok (pageSequenceNumber, s) =>
                match readU32 s with
                | .error e => .error e
                | .ok (crcChecksum, s) =>
                  match readByte s with
                  | .error e => .error e
                  | .ok (pageSegments, s) =>
                    match readExact pageSegments.val s with
                    | .error e => .error e
                    | .ok (segmentTable, s) =>
                      match readExact ((segmentTable.map Fin.val).sum) s with
                      | .error e => .error e
                      | .ok (payload, s) =>
                        .ok ({ version, headerType, granulePosition,
                               bitstreamSerialNumber, pageSequenceNumber,
                               crcChecksum, pageSegments, segmentTable,
                               payload }, s)

/-- The channel mapping table of `src/opus_header_structs.rs`. -/
structure ChannelMappingTable where
  streamCount : Byte
  coupledStreamCount : Byte
  channelMapping : List Byte
deriving DecidableEq

/-- The identification header of `src/opus_header_structs.rs`. -/
structure IdentificationHeader where
  version : Byte
  channelCount : Byte
  preSkip : Nat
  inputSampleRate : Nat
  outputGain : Int
  channelMappingFamily : Byte
  channelMappingTable : Option ChannelMappingTable
deriving DecidableEq

/-- The comment header of `src/opus_header_structs.rs`.  The Rust `String`s
are modelled by their UTF-8 bytes, and the `HashMap<String, String>` by an
association list with `HashMap::insert` update semantics (`mapInsert`). -/
structure CommentHeader where
  vendor : List Byte
  userComments : List (List Byte × List Byte)
deriving DecidableEq

/-- Embedding of `ChannelMappingTable::parse` (src/opus_header_structs.rs). -/
def ChannelMappingTable.parse (s : List Byte) :
    Except ParseError (ChannelMappingTable × List Byte) :=
  match readByte s with
  | .error e => .error e
  | .ok (streamCount, s) =>
    match readByte s with
    | .error e => .error e
    | .ok (coupledStreamCount, s) =>
      match readExact streamCount.val s with
      | .error e => .error e
      | .ok (channelMapping, s) =>
        .ok ({ streamCount, coupledStreamCount, channelMapping }, s)

/-- Embedding of `IdentificationHeader::parse` (src/opus_header_structs.rs).
Checks the `OpusHead` signature, reads the fixed fields, and the optional
channel mapping table when `channel_mapping_family != 0`. -/
def IdentificationHeader.parse (s : List Byte) :
    Except ParseError (IdentificationHeader × List Byte) :=
  match readExact 8 s with
  | .error e => .error e
  | .ok (magic, s) =>
    if magic ≠ opusHeadMagic then .error .InvalidOpusHeader
    else
      match readByte s with
      | .error e => .error e
      | .ok (version, s) =>
        match readByte s with
        | .error e => .error e
        | .ok (channelCount, s) =>
          match readU16 s with
          | .error e => .error e
          | .ok (preSkip, s) =>
            match readU32 s with
            | .error e => .error e
            | .ok (inputSampleRate, s) =>
              match readI16 s with
              | .error e => .error e
              | .ok (outputGain, s) =>
                match readByte s with
                | .error e => .error e
                | .ok (channelMappingFamily, s) =>
                  if channelMappingFamily.val ≠ 0 then
                    match ChannelMappingTable.parse s with
                    | .error e => .error e
                    | .ok (tbl, s) =>
                      .ok ({ version, channelCount, preSkip, inputSampleRate,
                             outputGain, channelMappingFamily,
                             channelMappingTable := some tbl }, s)
                  else
                    .ok ({ version, channelCount, preSkip, inputSampleRate,
                           outputGain, channelMappingFamily,
                           channelMappingTable := none }, s)

/-- Validity of a byte sequence as UTF-8, as decided by `str::from_utf8`
(the byte-level shape of RFC 3629). -/
def utf8Valid : List Byte → Bool
  | [] => true
  | b :: rest =>
    if b.val ≤ 0x7F then utf8Valid rest
    else if 0xC2 ≤ b.val ∧ b.val ≤ 0xDF then
      match rest with
      | c :: r => (0x80 ≤ c.val && c.val ≤ 0xBF) && utf8Valid r
      | [] => false
    else if b.val = 0xE0 then
      match rest with
      | c1 :: c2 :: r =>
        (0xA0 ≤ c1.val && c1.val ≤ 0xBF) && (0x80 ≤ c2.val && c2.val ≤ 0xBF) && utf8Valid r
      | _ => false
    else if (0xE1 ≤ b.val ∧ b.val ≤ 0xEC) ∨ b.val = 0xEE ∨ b.val = 0xEF then
      match rest with
      | c1 :: c2 :: r =>
        (0x80 ≤ c1.val && c1.val ≤ 0xBF) && (0x80 ≤ c2.val && c2.val ≤ 0xBF) && utf8Valid r
      | _ => false
    else if b.val = 0xED then
      match rest with
      | c1 :: c2 :: r =>
        (0x80 ≤ c1.val && c1.val ≤ 0x9F) && (0x80 ≤ c2.val && c2.val ≤ 0xBF) && utf8Valid r
      | _ => false
    else if b.val = 0xF0 then
      match rest with
      | c1 :: c2 :: c3 :: r =>
        (0x90 ≤ c1.val && c1.val ≤ 0xBF) && (0x80 ≤ c2.val && c2.val ≤ 0xBF) &&
          (0x80 ≤ c3.val && c3.val ≤ 0xBF) && utf8Valid r
      | _ => false
    else if 0xF1 ≤ b.val ∧ b.val ≤ 0xF3 then
      match rest with
      | c1 :: c2 :: c3 :: r =>
        (0x80 ≤ c1.val && c1.val ≤ 0xBF) && (0x80 ≤ c2.val && c2.val ≤ 0xBF) &&
          (0x80 ≤ c3.val && c3.val ≤ 0xBF) && utf8Valid r
      | _ => false
    else if b.val = 0xF4 then
      match rest with
      | c1 :: c2 :: c3 :: r =>
        (0x80 ≤ c1.val && c1.val ≤ 0x8F) && (0x80 ≤ c2.val && c2.val ≤ 0xBF) &&
          (0x80 ≤ c3.val && c3.val ≤ 0xBF) && utf8Valid r
      | _ => false
    else false

/-- Embedding of `commentstr.splitn(2, "=")` followed by the arity check of
`CommentHeader::parse`: when the string holds an '=' (byte 0x3D — in valid
UTF-8 this byte occurs exactly as that character), return the part before
the first '=' and everything after it; otherwise the split yields a single
part and the entry is ignored. -/
def splitEq (s : List Byte) : Option (List Byte × List Byte) :=
  if (0x3D : Byte) ∈ s then
    some (s.takeWhile (fun b => !(b == (0x3D : Byte))),
          (s.dropWhile (fun b => !(b == (0x3D : Byte)))).tail)
  else none

/-- Semantics of `HashMap::insert`: replace the value stored at an existing
key, otherwise add a new entry. -/
def mapInsert (m : List (List Byte × List Byte)) (k v : List Byte) :
    List (List Byte × List Byte) :=
  if m.any (fun p => p.1 = k) then
    m.map (fun p => if p.1 = k then (k, v) else p)
  else m ++ [(k, v)]

/-- One iteration of the comment loop of `CommentHeader::parse`: split the
decoded entry at the first '=' and insert the pair, or drop the entry. -/
def commentStep (m : List (List Byte × List Byte)) (e : List Byte) :
    List (List Byte × List Byte) :=
  match splitEq e with
  | some (k, v) => mapInsert m k v
  | none => m

/-- The `for _i in 0..commentlistlen` loop of `CommentHeader::parse`:
per entry, read a `u32` length, allocate a buffer of that many bytes
(logged), `read_exact` it, require UTF-8, and split/insert.  The second
component of the result is the allocation log. -/
def parseCommentsLoop (n : Nat) (comments : List (List Byte × List Byte))
    (s : List Byte) (allocs : List Nat) :
    Except ParseError (List (List Byte × List Byte) × List Byte) × List Nat :=
  match n with
  | 0 => (.ok (comments, s), allocs)
  | n + 1 =>
    match readU32 s with
    | .error e => (.error e, allocs)
    | .ok (commentlen, s) =>
      let allocs := allocs ++ [commentlen]
      match readExact commentlen s with
      | .error e => (.error e, allocs)
      | .ok (buf, s) =>
        if utf8Valid buf then
          parseCommentsLoop n (commentStep comments buf) s allocs
        else (.error .Encoding, allocs)

/-- Embedding of `CommentHeader::parse` (src/opus_header_structs.rs),
instrumented with a log of the sizes of the `vec![0; n]` buffers whose
size comes from a parsed length field (`vlen` and each `commentlen`).
Checks the `OpusTags` signature, then reads the length-prefixed vendor
string and the comment list; no claimed length is compared against any
remaining-byte budget before the buffer is created. -/
def CommentHeader.parseWithAllocs (s : List Byte) :
    Except ParseError (CommentHeader × List Byte) × List Nat :=
  match readExact 8 s with
  | .error e => (.error e, [])
  | .ok (magic, s) =>
    if magic ≠ opusTagsMagic then (.error .InvalidOpusHeader, [])
    else
      match readU32 s with
      | .error e => (.error e, [])
      | .ok (vlen, s) =>
        let allocs := [vlen]
        match readExact vlen s with
        | .error e => (.error e, allocs)
        | .ok (vstr, s) =>
          if utf8Valid vstr then
            match readU32 s with
            | .error e => (.error e, allocs)
            | .ok (commentlistlen, s) =>
              match parseCommentsLoop commentlistlen [] s allocs with
              | (.error e, allocs) => (.error e, allocs)
              | (.ok (comments, s), allocs) =>
                (.ok ({ vendor := vstr, userComments := comments }, s), allocs)
          else (.error .Encoding, allocs)

/-- Embedding of `CommentHeader::parse` without the allocation log. -/
def CommentHeader.parse (s : List Byte) :
    Except ParseError (CommentHeader × List Byte) :=
  (CommentHeader.parseWithAllocs s).1

/-- The loop of `OpusPacket::parse` (src/opus_packets.rs).  The state is the
`continue_reading` flag, the payloads of the `relevant_pages` collected so
far, and the pending `next_packet_page`.  Mirrors the source faithfully,
including `is_last = next_page.header_type & 0x4 == 0` and
`continue_reading = is_relevant && !is_last`.  `fuel` only bounds the
recursion; every iteration consumes at least one byte of the stream, so
`s.length` is always enough fuel. -/
def packetLoop (fuel : Nat) (continueReading : Bool)
    (relevant : List (List Byte)) (nextPacketPage : Option OggPage)
    (s : List Byte) :
    Except ParseError (List (List Byte) × Option OggPage × List Byte) :=
  match fuel with
  | 0 => .ok (relevant, nextPacketPage, s)
  | fuel + 1 =>
    if continueReading then
      match OggPage.parse s with
      | .error e => .error e
      | .ok (nextPage, s) =>
        let isRelevant := nextPage.headerType.val &&& 0x1 == 1
        let isLast := nextPage.headerType.val &&& 0x4 == 0
        if isRelevant then
          packetLoop fuel (isRelevant && !isLast) (relevant ++ [nextPage.payload])
            nextPacketPage s
        else
          packetLoop fuel (isRelevant && !isLast) relevant (some nextPage) s
    else .ok (relevant, nextPacketPage, s)

/-- Embedding of `OpusPacket::parse` (src/opus_packets.rs): starting from an
already-parsed first page, keep reading pages while `continue_reading`
holds, then concatenate the payloads of the relevant pages. -/
def OpusPacket.parse (s : List Byte) (firstPage : OggPage) :
    Except ParseError (List Byte × Option OggPage × List Byte) :=
  match packetLoop (s.length + 1) (firstPage.headerType.val &&& 0x4 == 0)
      [firstPage.payload] none s with
  | .error e => .error e
  | .ok (relevant, nextPacketPage, s) => .ok (relevant.flatten, nextPacketPage, s)

/-- The loop of `OpusPackets::parse` (src/opus_packets.rs): parse packets
until `OpusPacket::parse` reports that the reader ended. -/
def packetsLoop (fuel : Nat) (packets : List (List Byte)) (page : OggPage)
    (s : List Byte) : Except ParseError (List (List Byte)) :=
  match fuel with
  | 0 => .ok packets
  | fuel + 1 =>
    match OpusPacket.parse s page with
    | .error e => .error e
    | .ok (packet, next, s) =>
      match next with
      | some nextPage => packetsLoop fuel (packets ++ [packet]) nextPage s
      | none => .ok (packets ++ [packet])

/-- Embedding of `OpusPackets::parse` (src/opus_packets.rs). -/
def OpusPackets.parse (s : List Byte) (firstPage : OggPage) :
    Except ParseError (List (List Byte)) :=
  packetsLoop (s.length + 1) [] firstPage s

/-- Packet reassembly of a whole stream: parse the first page, then hand it
to `OpusPackets::parse` together with the rest of the reader, matching the
crate's call pattern `OpusPackets::parse(reader, first_page)`. -/
def opusPacketsFromStream (s : List Byte) : Except ParseError (List (List Byte)) :=
  match OggPage.parse s with
  | .error e => .error e
  | .ok (firstPage, s) => OpusPackets.parse s firstPage

namespace OldLib

/-- Errors of the scanning parser in `src/lib.rs` (`enum ParseError`
there); payloads dropped. -/
inductive ParseError where
  | UnexpectedEOF
  | Utf8Error
  | DidNotFindHeaders
deriving DecidableEq

/-- Result of a magic-number match attempt (`enum OpusHeadsMatch` in
src/lib.rs). -/
inductive OpusHeadsMatch where
  | none
  | ident
  | comment
  | retry (b : Byte)
deriving DecidableEq

/-- Common tail of `matches_head` in src/lib.rs: with `next` holding the
last byte read (0 when none was read), return `Retry(next)` when it is
0x4f and `None` otherwise. -/
def headTail (next : Byte) (s : List Byte) :
    Except ParseError (OpusHeadsMatch × List Byte) :=
  if next = 0x4f then .ok (.retry next, s) else .ok (.none, s)

/-- Reading one byte in src/lib.rs maps a short read to `UnexpectedEOF`. -/
def readByte1 (s : List Byte) : Except ParseError (Byte × List Byte) :=
  match s with
  | [] => .error .UnexpectedEOF
  | b :: rest => .ok (b, rest)

/-- Embedding of `matches_head` (src/lib.rs): incremental match of the
`OpusHead` / `OpusTags` magic bytes, falling through to `headTail` with the
last byte read whenever a byte fails to match. -/
def matches_head (current : Byte) (s : List Byte) :
    Except ParseError (OpusHeadsMatch × List Byte) :=
  if current = 0x4f then
    match readByte1 s with
    | .error e => .error e
    | .ok (n1, s) =>
      if n1 = 0x70 then
        match readByte1 s with
        | .error e => .error e
        | .ok (n2, s) =>
          if n2 = 0x75 then
            match readByte1 s with
            | .error e => .error e
            | .ok (n3, s) =>
              if n3 = 0x73 then
                match readByte1 s with
                | .error e => .error e
                | .ok (n4, s) =>
                  if n4 = 0x48 then
                    match readByte1 s with
                    | .error e => .error e
                    | .ok (n5, s) =>
                      if n5 = 0x65 then
                        match readByte1 s with
                        | .error e => .error e
                        | .ok (n6, s) =>
                          if n6 = 0x61 then
                            match readByte1 s with
                            | .error e => .error e
                            | .ok (n7, s) =>
                              if n7 = 0x64 then .ok (.ident, s)
                              else headTail n7 s
                          else headTail n6 s
                      else headTail n5 s
                  else
                    if n4 = 0x54 then
                      match readByte1 s with
                      | .error e => .error e
                      | .ok (n5, s) =>
                        if n5 = 0x61 then
                          match readByte1 s with
                          | .error e => .error e
                          | .ok (n6, s) =>
                            if n6 = 0x67 then
                              match readByte1 s with
                              | .error e => .error e
                              | .ok (n7, s) =>
                                if n7 = 0x73 then .ok (.comment, s)
                                else headTail n7 s
                            else headTail n6 s
                        else headTail n5 s
                    else headTail n4 s
              else headTail n3 s
          else headTail n2 s
      else headTail n1 s
  else headTail 0 s

/-- Embedding of `parse_channel_mapping_table` (src/lib.rs). -/
def parse_channel_mapping_table (s : List Byte) :
    Except ParseError (ChannelMappingTable × List Byte) :=
  match readByte1 s with
  | .error e => .error e
  | .ok (streamCount, s) =>
    match readByte1 s with
    | .error e => .error e
    | .ok (coupledStreamCount, s) =>
      if streamCount.val ≤ s.length then
        .ok ({ streamCount, coupledStreamCount,
               channelMapping := s.take streamCount.val }, s.drop streamCount.val)
      else .error .UnexpectedEOF

/-- Embedding of `parse_identification_header` (src/lib.rs). -/
def parse_identification_header (s : List Byte) :
    Except ParseError (IdentificationHeader × List Byte) :=
  match readByte1 s with
  | .error e => .error e
  | .ok (version, s) =>
    match readByte1 s with
    | .error e => .error e
    | .ok (channelCount, s) =>
      match s with
      | b0 :: b1 :: s =>
        let preSkip := leVal [b0, b1]
        match s with
        | c0 :: c1 :: c2 :: c3 :: s =>
          let inputSampleRate := leVal [c0, c1, c2, c3]
          match s with
          | d0 :: d1 :: s =>
            let outputGain := leI16 [d0, d1]
            match readByte1 s with
            | .error e => .error e
            | .ok (channelMappingFamily, s) =>
              if channelMappingFamily.val ≠ 0 then
                match parse_channel_mapping_table s with
                | .error e => .error e
                | .ok (tbl, s) =>
                  .ok ({ version, channelCount, preSkip, inputSampleRate,
                         outputGain, channelMappingFamily,
                         channelMappingTable := some tbl }, s)
              else
                .ok ({ version, channelCount, preSkip, inputSampleRate,
                       outputGain, channelMappingFamily,
                       channelMappingTable := none }, s)
          | _ => .error .UnexpectedEOF
        | _ => .error .UnexpectedEOF
      | _ => .error .UnexpectedEOF

/-- Embedding of `parse_comment_header` (src/lib.rs), instrumented like
`CommentHeader.parseWithAllocs` with the sizes of the `vec![0; n]` buffers
allocated from the parsed `vlen` and `commentlen` fields. -/
def parse_comment_header (s : List Byte) :
    Except ParseError (CommentHeader × List Byte) × List Nat :=
  match s with
  | a0 :: a1 :: a2 :: a3 :: s =>
    let vlen := leVal [a0, a1, a2, a3]
    let allocs := [vlen]
    if vlen ≤ s.length then
      let vstr := s.take vlen
      let s := s.drop vlen
      if utf8Valid vstr then
        match s with
        | b0 :: b1 :: b2 :: b3 :: s =>
          let commentlistlen := leVal [b0, b1, b2, b3]
          match parseCommentsLoopOld commentlistlen [] s allocs with
          | (.error e, allocs) => (.error e, allocs)
          | (.ok (comments, s), allocs) =>
            (.ok ({ vendor := vstr, userComments := comments }, s), allocs)
        | _ => (.error .UnexpectedEOF, allocs)
      else (.error .Utf8Error, allocs)
    else (.error .UnexpectedEOF, allocs)
  | _ => (.error .UnexpectedEOF, [])
where
  /-- The `for _i in 0..commentlistlen` loop of `parse_comment_header`. -/
  parseCommentsLoopOld (n : Nat) (comments : List (List Byte × List Byte))
      (s : List Byte) (allocs : List Nat) :
      Except ParseError (List (List Byte × List Byte) × List Byte) × List Nat :=
    match n with
    | 0 => (.ok (comments, s), allocs)
    | n + 1 =>
      match s with
      | c0 :: c1 :: c2 :: c3 :: s =>
        let commentlen := leVal [c0, c1, c2, c3]
        let allocs := allocs ++ [commentlen]
        if commentlen ≤ s.length then
          let buf := s.take commentlen
          let s := s.drop commentlen
          if utf8Valid buf then
            parseCommentsLoopOld n (commentStep comments buf) s allocs
          else (.error .Utf8Error, allocs)
        else (.error .UnexpectedEOF, allocs)
      | _ => (.error .UnexpectedEOF, allocs)

/-- The inner `while let Retry(current) = match_result` loop of `parse`
(src/lib.rs).  Each retry consumes at least one byte, so `s.length` fuel
always suffices. -/
def retryLoop (fuel : Nat) (r : OpusHeadsMatch) (s : List Byte) :
    Except ParseError (OpusHeadsMatch × List Byte) :=
  match fuel with
  | 0 => .ok (r, s)
  | fuel + 1 =>
    match r with
    | .retry current =>
      match matches_head current s with
      | .error e => .error e
      | .ok (r, s) => retryLoop fuel r s
    | r => .ok (r, s)

/-- The headers record of src/lib.rs (`struct OpusHeaders`). -/
structure OpusHeaders where
  id : IdentificationHeader
  comments : CommentHeader
deriving DecidableEq

/-- The outer `while let Ok(()) = reader.read_exact(&mut cursor)` loop of
`parse` (src/lib.rs).  Each iteration consumes at least the cursor byte, so
`s.length` fuel always suffices. -/
def parseLoop (fuel : Nat) (ident : Option IdentificationHeader)
    (comment : Option CommentHeader) (s : List Byte) (allocs : List Nat) :
    Except ParseError OpusHeaders × List Nat :=
  match fuel with
  | 0 => finish ident comment allocs
  | fuel + 1 =>
    match s with
    | [] => finish ident comment allocs
    | cursor :: s =>
      match matches_head cursor s with
      | .error e => (.error e, allocs)
      | .ok (r, s) =>
        match retryLoop s.length r s with
        | .error e => (.error e, allocs)
        | .ok (r, s) =>
          match r with
          | .ident =>
            match parse_identification_header s with
            | .error e => (.error e, allocs)
            | .ok (id, s) =>
              match comment with
              | some co => (.ok { id, comments := co }, allocs)
              | none => parseLoop fuel (some id) comment s allocs
          | .comment =>
            match parse_comment_header s with
            | (.error e, allocs2) => (.error e, allocs ++ allocs2)
            | (.ok (co, s), allocs2) =>
              match ident with
              | some id => (.ok { id, comments := co }, allocs ++ allocs2)
              | none => parseLoop fuel ident (some co) s (allocs ++ allocs2)
          | _ => parseLoop fuel ident comment s allocs
where
  /-- The check after the loop: both headers found, or `DidNotFindHeaders`. -/
  finish (ident : Option IdentificationHeader) (comment : Option CommentHeader)
      (allocs : List Nat) : Except ParseError OpusHeaders × List Nat :=
    match ident, comment with
    | some id, some co => (.ok { id, comments := co }, allocs)
    | _, _ => (.error .DidNotFindHeaders, allocs)

/-- Embedding of the exposed `parse` of src/lib.rs, instrumented with the
allocation log of the comment-header path. -/
def parse (s : List Byte) : Except ParseError OpusHeaders × List Nat :=
  parseLoop s.length none none s []

end OldLib

/-- Modelled from the spec: the fixed ceiling on the assembled comment
header ("a fixed ceiling (implementation constant, e.g. 120 MiB)";
`error.rs` documents `CommentHeaderTooLarge` as "The Comment Header
exceeds 120MB").  120 MiB in bytes. -/
def maxCommentSize : Nat := 125829120

/-- Modelled from the spec: the page-gathering loop of the comment
assembler, whose code (the crate's current `lib.rs`) is not under `src/`;
only its error declarations (`error.rs`) and tests (`tests.rs`) are.
Following §4.3(a) of the spec: with `acc` the payload bytes accumulated so
far, "track a running total; if it exceeds a fixed ceiling, fail
immediately with CommentHeaderTooLarge without reading further pages";
otherwise read the next page, and accumulate its payload when its
`header_type` bit 0x01 is set, "stopping at (and excluding) the first page
without that bit, or at end of input".  `fuel` only bounds the recursion;
every parsed page consumes at least one byte, so the remaining stream
length is always enough fuel. -/
def gatherLoop (fuel : Nat) (acc : List Byte) (s : List Byte) :
    Except ParseError (List Byte) :=
  if maxCommentSize < acc.length then .error .CommentHeaderTooLarge
  else
    match fuel with
    | 0 => .ok acc
    | fuel + 1 =>
      match OggPage.parse s with
      | .error _ => .ok acc
      | .ok (page, s) =>
        if page.headerType.val &&& 0x1 = 1 then
          gatherLoop fuel (acc ++ page.payload) s
        else .ok acc

/-- Modelled from the spec: phase (a) of the comment assembler (§4.3),
starting "from the page immediately following the identification page":
parse that first comment page and gather the continuation payloads with
`gatherLoop`. -/
def assembleComment (s : List Byte) : Except ParseError (List Byte) :=
  match OggPage.parse s with
  | .error e => .error e
  | .ok (page, s) => gatherLoop s.length page.payload s

/-- Little-endian encoding of a 32-bit value (test-input construction). -/
def encodeU32 (n : Nat) : List Byte :=
  [natToByte n, natToByte (n / 256), natToByte (n / 65536), natToByte (n / 16777216)]

/-- Encoding of one length-prefixed comment entry (test-input construction). -/
def encodeEntry (e : List Byte) : List Byte := encodeU32 e.length ++ e

/-- Encoding of a whole comment-header payload: signature, length-prefixed
vendor string, entry count, then the length-prefixed entries. -/
def encodeCommentHeader (vendor : List Byte) (entries : List (List Byte)) : List Byte :=
  opusTagsMagic ++ encodeU32 vendor.length ++ vendor ++
    encodeU32 entries.length ++ (entries.map encodeEntry).flatten

/-- Canonical lacing table for a payload of `n` bytes: full 255-byte
segments followed by the remainder (omitted when zero).  For `n ≤ 65025`
it has at most 255 entries and its values sum to `n`. -/
def lacingBytes (n : Nat) : List Byte :=
  List.replicate (n / 255) (255 : Byte) ++
    (if n % 255 = 0 then [] else [natToByte (n % 255)])

/-- Encoding of one Ogg page with the given header-type byte and payload:
capture pattern, version 0, `ht`, zero granule position, zero serial,
sequence and checksum fields, then the canonical lacing table and the
payload (test-input construction). -/
def encodePage (ht : Byte) (pl : List Byte) : List Byte :=
  0x4f :: 0x67 :: 0x67 :: 0x53 :: 0 :: ht ::
  0 :: 0 :: 0 :: 0 :: 0 :: 0 :: 0 :: 0 ::
  0 :: 0 :: 0 :: 0 :: 0 :: 0 :: 0 :: 0 :: 0 :: 0 :: 0 :: 0 ::
  natToByte (lacingBytes pl.length).length :: (lacingBytes pl.length ++ pl)

/-- Concatenated encoding of a list of (header-type, payload) pages. -/
def pagesEncode (ps : List (Byte × List Byte)) : List Byte :=
  (ps.map (fun p => encodePage p.1 p.2)).flatten

/-- Comment-header bytes carrying an `entry_length` of 0xFFFFFFFF: the
`OpusTags` signature, an empty vendor string, a declared count of one
entry, and the forged entry length, with nothing after it. -/
def c1Input : List Byte := opusTagsMagic ++ encodeU32 0 ++ encodeU32 1 ++ encodeU32 4294967295

/-- Stream for the scanning `parse` of src/lib.rs: the `OpusTags` magic
followed by a forged vendor length of 0xFFFFFFFF and nothing else. -/
def c7Input : List Byte := opusTagsMagic ++ encodeU32 4294967295

/-- The page sequence `[start][cont][cont][newstart+end]`: header types
0x00, 0x01, 0x01, 0x04 with payloads `[1,2]`, `[3,4]`, `[5,6]`, `[7,8]`. -/
def c4Input : List Byte :=
  encodePage 0 [1, 2] ++ encodePage 1 [3, 4] ++ encodePage 1 [5, 6] ++ encodePage 4 [7, 8]

/-- A single page without the end-of-stream bit (header type 0x00, payload
`[9]`), followed by end of input. -/
def c5Input : List Byte := encodePage 0 [9]

/-- The bytes of `ARTIST=` followed by one value byte. -/
def artistEq (b : Byte) : List Byte := [65, 82, 84, 73, 83, 84, 0x3D, b]

/-- A comment header with two `ARTIST=...` entries (`ARTIST=a` and
`ARTIST=b`) and an empty vendor string. -/
def c6Input : List Byte := encodeCommentHeader [] [artistEq 97, artistEq 98]

/-- The page record produced by parsing `encodePage 0 [5, 6]`. -/
def c3Page : OggPage :=
  { version := 0, headerType := 0, granulePosition := 0, bitstreamSerialNumber := 0,
    pageSequenceNumber := 0, crcChecksum := 0, pageSegments := 1, segmentTable := [2],
    payload := [5, 6] }

/-- The page record produced by parsing `encodePage 4 [7]`. -/
def c10Page : OggPage :=
  { version := 0, headerType := 4, granulePosition := 0, bitstreamSerialNumber := 0,
    pageSequenceNumber := 0, crcChecksum := 0, pageSegments := 1, segmentTable := [1],
    payload := [7] }

theorem natToByte_val {n : Nat} (h : n < 256) : (natToByte n).val = n := by
  simp [natToByte, Nat.mod_eq_of_lt h]

theorem readExact_append (l r : List Byte) : readExact l.length (l ++ r) = .ok (l, r) := by
  simp [readExact, List.take_left, List.drop_left]

theorem readExact_cons4 (a b c d : Byte) (t : List Byte) :
    readExact 4 (a :: b :: c :: d :: t) = .ok ([a, b, c, d], t) := by
  simp [readExact, List.take, List.drop]

theorem lacingBytes_sum (n : Nat) : ((lacingBytes n).map Fin.val).sum = n := by
  unfold lacingBytes
  by_cases h : n % 255 = 0 <;>
    simp [h, List.map_replicate, List.sum_replicate, natToByte,
      Nat.mod_eq_of_lt (show n % 255 < 256 by omega)] <;> omega

theorem lacingBytes_length_le {n : Nat} (h : n ≤ 65025) : (lacingBytes n).length ≤ 255 := by
  unfold lacingBytes
  by_cases h0 : n % 255 = 0 <;> simp [h0] <;> omega

theorem encodePage_length (ht : Byte) (pl : List Byte) :
    (encodePage ht pl).length = 27 + (lacingBytes pl.length).length + pl.length := by
  simp [encodePage]
  omega

theorem encodePage_parse (ht : Byte) (pl rest : List Byte) (h : pl.length ≤ 65025) :
    OggPage.parse (encodePage ht pl ++ rest) =
      .ok ({ version := 0, headerType := ht, granulePosition := 0,
             bitstreamSerialNumber := 0, pageSequenceNumber := 0, crcChecksum := 0,
             pageSegments := natToByte (lacingBytes pl.length).length,
             segmentTable := lacingBytes pl.length, payload := pl }, rest) := by
  have hL : (lacingBytes pl.length).length ≤ 255 := lacingBytes_length_le h
  have hval : (natToByte (lacingBytes pl.length).length).val = (lacingBytes pl.length).length :=
    natToByte_val (by omega)
  simp only [encodePage, List.cons_append]
  unfold OggPage.parse
  rw [readExact_cons4]
  simp only [readByte, readI64, readU32, oggMagic]
  norm_num [leI64, leVal, leI16]
  rw [hval]
  simp only [readExact_append, lacingBytes_sum]

theorem gatherLoop_overflow (ps : List (Byte × List Byte)) :
    ∀ (acc junk : List Byte) (fuel : Nat),
    (∀ p ∈ ps, p.2.length ≤ 65025 ∧ p.1.val &&& 1 = 1) →
    maxCommentSize < acc.length + (ps.map (fun p => p.2.length)).sum →
    (pagesEncode ps ++ junk).length ≤ fuel →
    gatherLoop fuel acc (pagesEncode ps ++ junk) = .error .CommentHeaderTooLarge := by
  induction ps with
  | nil =>
    intro acc junk fuel _ hover _
    rw [gatherLoop.eq_def, if_pos (by simpa using hover)]
  | cons p ps ih =>
    intro acc junk fuel hps hover hfuel
    rw [gatherLoop.eq_def]
    by_cases hacc : maxCommentSize < acc.length
    · rw [if_pos hacc]
    · rw [if_neg hacc]
      have hplen : (pagesEncode (p :: ps) ++ junk).length =
          (encodePage p.1 p.2).length + (pagesEncode ps ++ junk).length := by
        simp [pagesEncode]
      have hpos : 1 ≤ (encodePage p.1 p.2).length := by
        rw [encodePage_length]; omega
      match fuel with
      | 0 => omega
      | fuel + 1 =>
        have hstream : pagesEncode (p :: ps) ++ junk =
            encodePage p.1 p.2 ++ (pagesEncode ps ++ junk) := by
          simp [pagesEncode]
        rw [hstream, encodePage_parse _ _ _ (hps p (List.mem_cons_self p ps)).1]
        simp only []
        rw [if_pos (by simpa using (hps p (List.mem_cons_self p ps)).2)]
        apply ih
        · exact fun q hq => hps q (List.mem_cons_of_mem p hq)
        · simp at hover ⊢; omega
        · rw [hstream] at hfuel; simp at hfuel ⊢; omega

theorem OggPage.parse_ok_facts (s : List Byte) (page : OggPage) (rest : List Byte)
    (h : OggPage.parse s = .ok (page, rest)) :
    page.payload.length = (page.segmentTable.map Fin.val).sum ∧
      page.segmentTable.length ≤ 255 := by
  unfold OggPage.parse at h
  split at h
  · exact Except.noConfusion h
  rename_i magic s1 heq1
  split at h
  · exact Except.noConfusion h
  split at h
  · exact Except.noConfusion h
  rename_i version s2 heq2
  split at h
  · exact Except.noConfusion h
  rename_i headerType s3 heq3
  split at h
  · exact Except.noConfusion h
  rename_i granule s4 heq4
  split at h
  · exact Except.noConfusion h
  rename_i serial s5 heq5
  split at h
  · exact Except.noConfusion h
  rename_i seqno s6 heq6
  split at h
  · exact Except.noConfusion h
  rename_i crc s7 heq7
  split at h
  · exact Except.noConfusion h
  rename_i pseg s8 heq8
  split at h
  · exact Except.noConfusion h
  rename_i segTable s9 heq9
  split at h
  · exact Except.noConfusion h
  rename_i payload s10 heq10
  injection h with h'
  rw [Prod.mk.injEq] at h'
  obtain ⟨hpg, hrest⟩ := h'
  subst hpg
  unfold readExact at heq9 heq10
  split at heq9
  · injection heq9 with h9
    rw [Prod.mk.injEq] at h9
    obtain ⟨hseg, _⟩ := h9
    split at heq10
    · injection heq10 with h10
      rw [Prod.mk.injEq] at h10
      obtain ⟨hpl, _⟩ := h10
      subst hpl
      subst hseg
      constructor
      · simp only [List.length_take]
        omega
      · simp only [List.length_take]
        have : (pseg : Fin 256).val ≤ 255 := by omega
        simp
        omega
    · exact Except.noConfusion heq10
  · exact Except.noConfusion heq9

theorem readU32_encodeU32 (n : Nat) (r : List Byte) (h : n < 4294967296) :
    readU32 (encodeU32 n ++ r) = .ok (n, r) := by
  simp only [encodeU32, List.cons_append, List.nil_append, readU32, leVal, natToByte]
  norm_num
  omega

theorem parseCommentsLoop_encode (es : List (List Byte)) :
    ∀ (m : List (List Byte × List Byte)) (a : List Nat),
    (∀ e ∈ es, e.length < 4294967296 ∧ utf8Valid e = true) →
    parseCommentsLoop es.length m ((es.map encodeEntry).flatten) a =
      (.ok (es.foldl commentStep m, []), a ++ es.map (fun e => e.length)) := by
  induction es with
  | nil => intro m a _; simp [parseCommentsLoop]
  | cons e es ih =>
    intro m a hes
    have he := hes e (List.mem_cons_self e es)
    simp only [List.map_cons, List.flatten_cons, List.length_cons]
    rw [parseCommentsLoop]
    simp only [encodeEntry, List.append_assoc]
    rw [readU32_encodeU32 _ _ he.1]
    simp only [readExact_append, he.2, if_pos]
    rw [ih (commentStep m e) (a ++ [e.length]) (fun x hx => hes x (List.mem_cons_of_mem e hx))]
    simp [List.foldl_cons]

theorem encodeCommentHeader_parse (vendor : List Byte) (es : List (List Byte))
    (hv : vendor.length < 4294967296) (hvu : utf8Valid vendor = true)
    (hn : es.length < 4294967296)
    (hes : ∀ e ∈ es, e.length < 4294967296 ∧ utf8Valid e = true) :
    CommentHeader.parseWithAllocs (encodeCommentHeader vendor es) =
      (.ok ({ vendor := vendor, userComments := es.foldl commentStep [] }, []),
        vendor.length :: es.map (fun e => e.length)) := by
  unfold CommentHeader.parseWithAllocs
  simp only [encodeCommentHeader, List.append_assoc]
  have h8 : readExact 8 (opusTagsMagic ++ (encodeU32 vendor.length ++ (vendor ++
      (encodeU32 es.length ++ (es.map encodeEntry).flatten)))) =
      .ok (opusTagsMagic, encodeU32 vendor.length ++ (vendor ++
        (encodeU32 es.length ++ (es.map encodeEntry).flatten))) := by
    have := readExact_append opusTagsMagic (encodeU32 vendor.length ++ (vendor ++
      (encodeU32 es.length ++ (es.map encodeEntry).flatten)))
    simpa [opusTagsMagic] using this
  rw [h8]
  simp only [ne_eq, not_true_eq_false, if_false]
  rw [readU32_encodeU32 _ _ hv]
  simp only [readExact_append, hvu, if_pos]
  rw [readU32_encodeU32 _ _ hn]
  simp only [parseCommentsLoop_encode es [] [vendor.length] hes, List.singleton_append]

theorem splitEq_of_not_mem (s : List Byte) (h : (0x3D : Byte) ∉ s) : splitEq s = none := by
  simp [splitEq, h]

theorem commentStep_of_not_mem (m : List (List Byte × List Byte)) (s : List Byte)
    (h : (0x3D : Byte) ∉ s) : commentStep m s = m := by
  simp [commentStep, splitEq_of_not_mem s h]

theorem takeWhile_until_eq (k v : List Byte) (hk : (0x3D : Byte) ∉ k) :
    (k ++ (0x3D : Byte) :: v).takeWhile (fun b => !(b == (0x3D : Byte))) = k := by
  induction k with
  | nil => simp [List.takeWhile]
  | cons a k ih =>
    have ha : a ≠ (0x3D : Byte) := fun hc => hk (hc ▸ List.mem_cons_self a k)
    simp only [List.cons_append, List.takeWhile_cons]
    simp [ha, ih (fun hc => hk (List.mem_cons_of_mem a hc))]

theorem dropWhile_until_eq (k v : List Byte) (hk : (0x3D : Byte) ∉ k) :
    (k ++ (0x3D : Byte) :: v).dropWhile (fun b => !(b == (0x3D : Byte))) =
      (0x3D : Byte) :: v := by
  induction k with
  | nil => simp [List.dropWhile]
  | cons a k ih =>
    have ha : a ≠ (0x3D : Byte) := fun hc => hk (hc ▸ List.mem_cons_self a k)
    simp only [List.cons_append, List.dropWhile_cons]
    simp [ha, ih (fun hc => hk (List.mem_cons_of_mem a hc))]

theorem splitEq_cons (k v : List Byte) (hk : (0x3D : Byte) ∉ k) :
    splitEq (k ++ (0x3D : Byte) :: v) = some (k, v) := by
  have hmem : (0x3D : Byte) ∈ k ++ (0x3D : Byte) :: v := by simp
  simp [splitEq, hmem, takeWhile_until_eq k v hk, dropWhile_until_eq k v hk]

/-- C1: the claim says comment-header decoding checks every claimed field
length against the remaining declared header bytes before allocating, and
fails with the budget error on an `entry_length` of 0xFFFFFFFF.  Evaluating
`CommentHeader::parse` at exactly such an input shows the opposite: the
decoder requests an allocation of 4294967295 bytes (second entry of the
allocation log) and then fails with the I/O error of the short read, not
with any budget error — even though `error.rs` documents `CommentTooLong`
as exactly this check and `tests.rs` expects it for a malicious file. -/
theorem C1_no_budget_check_eval :
    CommentHeader.parseWithAllocs c1Input = (.error .Io, [0, 4294967295]) := by decide

/-- C2: (modelled from the spec, since the page-gathering code is not under
`src/`) while gathering comment-header payload bytes across continuation
pages, as soon as the running total exceeds the 120 MiB ceiling the
assembler fails with `CommentHeaderTooLarge`, regardless of what bytes
(`junk` — further pages, garbage, or nothing) follow the gathered pages:
the check is incremental and no further page is read. -/
theorem C2_comment_ceiling_incremental (ht0 : Byte) (pl0 : List Byte)
    (ps : List (Byte × List Byte)) (junk : List Byte)
    (h0 : pl0.length ≤ 65025)
    (hps : ∀ p ∈ ps, p.2.length ≤ 65025 ∧ p.1.val &&& 1 = 1)
    (hover : maxCommentSize < pl0.length + (ps.map (fun p => p.2.length)).sum) :
    assembleComment (encodePage ht0 pl0 ++ (pagesEncode ps ++ junk)) =
      .error .CommentHeaderTooLarge := by
  unfold assembleComment
  rw [encodePage_parse _ _ _ h0]
  exact gatherLoop_overflow ps pl0 junk _ hps hover (le_refl _)

/-- Witness for C2: 1936 continuation pages of 65025 payload bytes each
(125888400 bytes in total, above the 125829120-byte ceiling) are rejected
with `CommentHeaderTooLarge`. -/
theorem C2_comment_ceiling_incremental_witness :
    assembleComment (encodePage 1 (List.replicate 65025 (0 : Byte)) ++
      (pagesEncode (List.replicate 1935 ((1 : Byte), List.replicate 65025 (0 : Byte))) ++ [])) =
      .error .CommentHeaderTooLarge := by
  apply C2_comment_ceiling_incremental
  · rw [List.length_replicate]
  · intro p hp
    have := List.eq_of_mem_replicate hp
    subst this
    refine ⟨?_, by decide⟩
    show (List.replicate 65025 (0 : Byte)).length ≤ 65025
    rw [List.length_replicate]
  · show maxCommentSize < _
    rw [maxCommentSize]
    simp only [List.map_replicate, List.length_replicate, List.sum_replicate, smul_eq_mul]
    norm_num

/-- C3: for every page accepted by `OggPage::parse`, the length of the
payload buffer equals the sum of the lacing values in the segment table. -/
theorem C3_payload_length_eq_segment_sum (s : List Byte) (page : OggPage) (rest : List Byte)
    (h : OggPage.parse s = .ok (page, rest)) :
    page.payload.length = (page.segmentTable.map Fin.val).sum :=
  (OggPage.parse_ok_facts s page rest h).1

/-- Witness for C3 at a concrete accepted page with one two-byte segment. -/
theorem C3_payload_length_eq_segment_sum_witness :
    c3Page.payload.length = (c3Page.segmentTable.map Fin.val).sum :=
  C3_payload_length_eq_segment_sum (encodePage 0 [5, 6]) c3Page [] (by decide)

set_option maxRecDepth 4000 in
/-- C4: the claim says the sequence `[start][cont][cont][newstart+end]`
yields two packets, the first from the first three payloads and the second
from the fourth.  Evaluating `OpusPackets::parse` at exactly that sequence
shows the code instead yields a single packet holding only the first two
payloads: because `is_last` in `OpusPacket::parse` is computed as
`header_type & 0x4 == 0` (inverted), the loop stops after the first
continuation page and the remaining pages are never read — contradicting
the function's own doc comment ("Reads until either the reader ends, or
any page is not a continuation of the previous page"). -/
theorem C4_packet_reassembly_eval : opusPacketsFromStream c4Input = .ok [[1, 2, 3, 4]] := by
  decide

set_option maxRecDepth 4000 in
/-- C5: the claim says reaching end of input without an end-of-stream bit
emits the pending accumulator with no error.  Evaluating the reassembler
on a single start page followed by end of input shows the code instead
propagates the I/O error of `OggPage::parse` from the next loop iteration
and loses the accumulator — again contradicting the doc comment of
`OpusPacket::parse`, which promises `None` when the reader ends. -/
theorem C5_truncated_stream_eval : opusPacketsFromStream c5Input = .error .Io := by decide

/-- Counterexample to C6: a comment header with the two entries `ARTIST=a`
and `ARTIST=b` decodes to a single `ARTIST` entry holding only `b` (97 and
98 are the bytes of `a` and `b`): the second entry overwrote the first, so
the two duplicate-key entries do not both appear. -/
theorem C6_duplicate_keys_counterexample :
    CommentHeader.parse c6Input =
      .ok ({ vendor := [], userComments := [([65, 82, 84, 73, 83, 84], [98])] }, []) := by
  decide

/-- C6 as amended: `user_comments` is a `HashMap`, so of two entries with
the same key the later one overwrites the earlier, and the resulting map
holds a single entry with the last value. -/
theorem C6_last_entry_wins (k v1 v2 : List Byte) (hk : (0x3D : Byte) ∉ k)
    (h1 : (k ++ (0x3D : Byte) :: v1).length < 4294967296)
    (hu1 : utf8Valid (k ++ (0x3D : Byte) :: v1) = true)
    (h2 : (k ++ (0x3D : Byte) :: v2).length < 4294967296)
    (hu2 : utf8Valid (k ++ (0x3D : Byte) :: v2) = true) :
    CommentHeader.parse (encodeCommentHeader []
        [k ++ (0x3D : Byte) :: v1, k ++ (0x3D : Byte) :: v2]) =
      .ok ({ vendor := [], userComments := [(k, v2)] }, []) := by
  unfold CommentHeader.parse
  rw [encodeCommentHeader_parse [] _ (by norm_num) (by rfl) (by norm_num) ?_]
  · simp only [List.foldl_cons, List.foldl_nil, commentStep, splitEq_cons k v1 hk,
      splitEq_cons k v2 hk]
    simp [mapInsert]
  · intro e he
    simp only [List.mem_cons, List.not_mem_nil, or_false] at he
    rcases he with rfl | rfl
    · exact ⟨h1, hu1⟩
    · exact ⟨h2, hu2⟩

/-- Witness for the amended C6 at key `[65]` and values `[97]`, `[98]`. -/
theorem C6_last_entry_wins_witness :
    CommentHeader.parse (encodeCommentHeader []
        [[65] ++ (0x3D : Byte) :: [97], [65] ++ (0x3D : Byte) :: [98]]) =
      .ok ({ vendor := [], userComments := [([65], [98])] }, []) :=
  C6_last_entry_wins [65] [97] [98] (by decide) (by decide) (by decide) (by decide) (by decide)

/-- C7: the claim says the exposed parse operations never allocate
unboundedly from untrusted length fields.  Evaluating the exposed `parse`
of src/lib.rs on a stream holding the `OpusTags` magic and a forged vendor
length of 0xFFFFFFFF shows the parser requests a 4294967295-byte buffer
(the allocation log) before any such bytes exist, then fails with
`UnexpectedEOF` — the allocation is driven entirely by the untrusted
length field, the very pattern the crate's own `CommentTooLong` error and
`test_malicious_file` are meant to rule out. -/
theorem C7_unbounded_allocation_eval :
    OldLib.parse c7Input = (.error .UnexpectedEOF, [4294967295]) := by decide

/-- C8: altering the capture pattern or either 8-byte header signature in
an otherwise long-enough stream makes the corresponding parser fail with
its corresponding error (`InvalidOggPage` for the page capture pattern,
`InvalidOpusHeader` for the two header signatures); the parsers are total
functions, so they can neither panic nor hang. -/
theorem C8_magic_mismatch_rejection :
    (∀ s : List Byte, 4 ≤ s.length → s.take 4 ≠ oggMagic →
      OggPage.parse s = .error .InvalidOggPage) ∧
    (∀ s : List Byte, 8 ≤ s.length → s.take 8 ≠ opusHeadMagic →
      IdentificationHeader.parse s = .error .InvalidOpusHeader) ∧
    (∀ s : List Byte, 8 ≤ s.length → s.take 8 ≠ opusTagsMagic →
      CommentHeader.parse s = .error .InvalidOpusHeader) := by
  refine ⟨?_, ?_, ?_⟩
  · intro s hlen hmag
    unfold OggPage.parse
    rw [readExact, if_pos hlen]
    simp only [if_pos hmag]
  · intro s hlen hmag
    unfold IdentificationHeader.parse
    rw [readExact, if_pos hlen]
    simp only [if_pos hmag]
  · intro s hlen hmag
    unfold CommentHeader.parse CommentHeader.parseWithAllocs
    rw [readExact, if_pos hlen]
    simp only [if_pos hmag]

/-- Witness for C8 on all-zero streams of sufficient length. -/
theorem C8_magic_mismatch_rejection_witness :
    OggPage.parse [0, 0, 0, 0] = .error .InvalidOggPage ∧
    IdentificationHeader.parse [0, 0, 0, 0, 0, 0, 0, 0] = .error .InvalidOpusHeader ∧
    CommentHeader.parse [0, 0, 0, 0, 0, 0, 0, 0] = .error .InvalidOpusHeader :=
  ⟨C8_magic_mismatch_rejection.1 [0, 0, 0, 0] (by decide) (by decide),
   C8_magic_mismatch_rejection.2.1 [0, 0, 0, 0, 0, 0, 0, 0] (by decide) (by decide),
   C8_magic_mismatch_rejection.2.2 [0, 0, 0, 0, 0, 0, 0, 0] (by decide) (by decide)⟩

/-- C9: a comment entry without an '=' separator is silently discarded and
every other entry still decodes: parsing a header whose entry list is
`es1 ++ bad :: es2` with `bad` holding no 0x3D byte succeeds and produces
exactly the comments obtained by folding the split-and-insert step over
`es1 ++ es2`, as if `bad` had not been present. -/
theorem C9_entry_without_separator_dropped (vendor bad : List Byte)
    (es1 es2 : List (List Byte))
    (hv : vendor.length < 4294967296) (hvu : utf8Valid vendor = true)
    (hn : (es1 ++ bad :: es2).length < 4294967296)
    (hes : ∀ e ∈ es1 ++ bad :: es2, e.length < 4294967296 ∧ utf8Valid e = true)
    (hbad : (0x3D : Byte) ∉ bad) :
    CommentHeader.parse (encodeCommentHeader vendor (es1 ++ bad :: es2)) =
      .ok ({ vendor := vendor,
             userComments := (es1 ++ es2).foldl commentStep [] }, []) := by
  unfold CommentHeader.parse
  rw [encodeCommentHeader_parse vendor _ hv hvu hn hes]
  simp only [List.foldl_append, List.foldl_cons, commentStep_of_not_mem _ bad hbad]

/-- Witness for C9: entries `TITLE=x`, `XY` (no separator), `ALBUM=y`. -/
theorem C9_entry_without_separator_dropped_witness :
    CommentHeader.parse (encodeCommentHeader []
        (([[84, 73, 84, 76, 69, 0x3D, 120]] : List (List Byte)) ++ [88, 89] ::
          [[65, 76, 66, 85, 77, 0x3D, 121]])) =
      .ok ({ vendor := [],
             userComments := (([[84, 73, 84, 76, 69, 0x3D, 120]] : List (List Byte)) ++
               [[65, 76, 66, 85, 77, 0x3D, 121]]).foldl commentStep [] }, []) :=
  C9_entry_without_separator_dropped [] [88, 89]
    [[84, 73, 84, 76, 69, 0x3D, 120]] [[65, 76, 66, 85, 77, 0x3D, 121]]
    (by decide) (by decide) (by decide) (by decide) (by decide)

/-- C10: every page accepted by `OggPage::parse` has a payload of at most
65025 bytes and a segment table of at most 255 entries, so the per-page
buffers are bounded by a constant independent of the input. -/
theorem C10_page_size_bounded (s : List Byte) (page : OggPage) (rest : List Byte)
    (h : OggPage.parse s = .ok (page, rest)) :
    page.payload.length ≤ 65025 ∧ page.segmentTable.length ≤ 255 := by
  obtain ⟨h1, h2⟩ := OggPage.parse_ok_facts s page rest h
  refine ⟨?_, h2⟩
  rw [h1]
  have hb : ∀ x ∈ page.segmentTable.map Fin.val, x ≤ 255 := by
    intro x hx
    simp only [List.mem_map] at hx
    obtain ⟨b, _, rfl⟩ := hx
    omega
  have := List.sum_le_card_nsmul (page.segmentTable.map Fin.val) 255 hb
  simp only [List.length_map, smul_eq_mul] at this
  omega

/-- Witness for C10 at a concrete accepted page with one one-byte segment. -/
theorem C10_page_size_bounded_witness :
    c10Page.payload.length ≤ 65025 ∧ c10Page.segmentTable.length ≤ 255 :=
  C10_page_size_bounded (encodePage 4 [7]) c10Page [] (by decide)
